import Mathlib

/-!
# Verification of the `enso-callback-manager` callback registry

Shallow embedding of `src/lib.rs`.  The Rust code stores, per registered
callback, a shared cell `Rc<RefCell<bool>>` (the liveness flag) together with
the closure; the caller-held `Handle` is a clone of the `Rc`.  We model the
heap of liveness cells as a list indexed by cell id (one fresh cell per
`add`), a cell recording its `alive` flag together with the number of
outstanding `Handle` values (the `Rc` strong count held by handles).
Closures are modelled by their observable effects on the registry: the set of
handles they drop when invoked, and whether they panic.  `run_all` is
translated directly from the source: `retain(is_alive)` followed by a loop
calling each retained closure with a clone of `args`; the trace of the loop
records which closure ran and with which argument value.
-/

/-- One liveness cell: the `RefCell<bool>` contents together with the number
of outstanding `Handle` clones of the owning `Rc`. -/
structure Cell where
  alive : Bool
  handles : Nat
deriving DecidableEq, Repr

/-- Observable behaviour of a registered closure: the cell ids of the handles
it drops when invoked, and whether it panics during invocation. -/
structure ClosureBeh where
  drops : List Nat
  fails : Bool
deriving DecidableEq, Repr

/-- Manager state: the heap of liveness cells (indexed by cell id) and the
`callbacks` vector, each entry identified by its cell id. -/
structure CMState where
  cells : List Cell
  callbacks : List Nat
deriving DecidableEq, Repr

/-- `Callback::is_alive`: read the liveness flag of the entry's cell
(`*self.alive.borrow()`).  A nonexistent cell id reads as dead. -/
def Callback.is_alive : List Cell → Nat → Bool
  | [], _ => false
  | cl :: _, 0 => cl.alive
  | _ :: rest, n + 1 => Callback.is_alive rest n

/-- Effect of `impl Drop for Handle` on the heap: set the cell's flag to
`false` (`*RefCell::borrow_mut(&self.0) = false`) and give back the `Rc`
strong count held by the dropped handle. -/
def dropCell : List Cell → Nat → List Cell
  | [], _ => []
  | cl :: rest, 0 => ⟨false, cl.handles - 1⟩ :: rest
  | cl :: rest, n + 1 => cl :: dropCell rest n

/-- Effect of `#[derive(Clone)]` for `Handle` on the heap: `Rc::clone`
increments the strong count and leaves the flag untouched. -/
def cloneCell : List Cell → Nat → List Cell
  | [], _ => []
  | cl :: rest, 0 => ⟨cl.alive, cl.handles + 1⟩ :: rest
  | cl :: rest, n + 1 => cl :: cloneCell rest n

/-- Number of outstanding `Handle` values for a cell id. -/
def handleCount : List Cell → Nat → Nat
  | [], _ => 0
  | cl :: _, 0 => cl.handles
  | _ :: rest, n + 1 => handleCount rest n

/-- `Handle::drop` at the state level: only the heap changes; the manager's
callback vector is untouched. -/
def Handle.drop (s : CMState) (h : Nat) : CMState :=
  ⟨dropCell s.cells h, s.callbacks⟩

/-- `Handle::clone` at the state level. -/
def Handle.clone (s : CMState) (h : Nat) : CMState :=
  ⟨cloneCell s.cells h, s.callbacks⟩

/-- `CallbackManager::add`: wrap the closure with a fresh cell
(`Rc::new(RefCell::new(true))`), push the entry, return the handle.  The
fresh cell id is the current heap size; its flag is `true` and exactly one
handle (the returned one) exists. -/
def CallbackManager.add (s : CMState) : CMState × Nat :=
  (⟨s.cells ++ [⟨true, 1⟩], s.callbacks ++ [s.cells.length]⟩, s.cells.length)

/-- The invoke loop of `run_all` (`for f in &mut self.callbacks`): call each
retained closure in order with a clone of `args`.  Returns the heap after the
closures' handle drops, the invocation trace (cell id, argument received),
and `true` iff no invoked closure panicked.  A panicking closure stops the
loop (Rust unwinding); its own invocation is recorded, later entries are not
reached. -/
def invokeAll (beh : Nat → ClosureBeh) (args : α) :
    List Cell → List Nat → List Cell × List (Nat × α) × Bool
  | cells, [] => (cells, [], true)
  | cells, c :: rest =>
    let cells2 := (beh c).drops.foldl dropCell cells
    if (beh c).fails then
      (cells2, [(c, args)], false)
    else
      let r := invokeAll beh args cells2 rest
      (r.1, (c, args) :: r.2.1, r.2.2)

/-- `CallbackManager::run_all`: `self.callbacks.retain(Callback::is_alive)`,
then the invoke loop over the retained entries.  The `retain` mutates the
vector before any closure runs, so the pruned vector is the final one even
when a closure panics. -/
def CallbackManager.run_all (beh : Nat → ClosureBeh) (s : CMState) (args : α) :
    CMState × List (Nat × α) × Bool :=
  let pruned := s.callbacks.filter (Callback.is_alive s.cells)
  let r := invokeAll beh args s.cells pruned
  (⟨r.1, pruned⟩, r.2.1, r.2.2)

/-- The state reached from an empty manager by `n` successive `add` calls,
with every returned handle retained. -/
def addN : Nat → CMState
  | 0 => ⟨[], []⟩
  | n + 1 => (CallbackManager.add (addN n)).1

/-- A sequence of `run_all` calls; returns the final state and the
concatenation of all invocation traces. -/
def runAllSeq (beh : Nat → ClosureBeh) : CMState → List α → CMState × List (Nat × α)
  | s, [] => (s, [])
  | s, a :: as =>
    let r := CallbackManager.run_all beh s a
    let r2 := runAllSeq beh r.1 as
    (r2.1, r.2.1 ++ r2.2)

/-- The operations a host program can perform on the registry between (and
including) `run_all` calls. -/
inductive Op (α : Type) where
  | dropH (h : Nat)
  | cloneH (h : Nat)
  | addC
  | runAll (a : α)
deriving DecidableEq, Repr

/-- One host operation applied to the state. -/
def stepOp (beh : Nat → ClosureBeh) (s : CMState) : Op α → CMState
  | .dropH h => Handle.drop s h
  | .cloneH h => Handle.clone s h
  | .addC => (CallbackManager.add s).1
  | .runAll a => (CallbackManager.run_all beh s a).1

/-- A sequence of host operations applied in order. -/
def stepsOp (beh : Nat → ClosureBeh) (s : CMState) : List (Op α) → CMState
  | [] => s
  | op :: ops => stepsOp beh (stepOp beh s op) ops

/-- Well-formedness: every entry in the callback vector refers to an
existing cell. Every state reachable from the empty manager satisfies it. -/
abbrev CMState.WF (s : CMState) : Prop :=
  ∀ c ∈ s.callbacks, c < s.cells.length

/-- Closures with no observable effect on the registry and no panic. -/
def behPure : Nat → ClosureBeh := fun _ => ⟨[], false⟩

/-- Closure `0` drops the handle of entry `1` when invoked; all other
closures are effect-free. -/
def behDropsOne : Nat → ClosureBeh := fun c => if c = 0 then ⟨[1], false⟩ else ⟨[], false⟩

/-- Closure `1` panics when invoked; all other closures are effect-free. -/
def behFailsOne : Nat → ClosureBeh := fun c => if c = 1 then ⟨[], true⟩ else ⟨[], false⟩

/-! ## Basic lemmas about the heap operations -/

theorem is_alive_dropCell (cells : List Cell) (d j : Nat) :
    Callback.is_alive (dropCell cells d) j
      = (Callback.is_alive cells j && !(j == d)) := by
  induction cells generalizing d j with
  | nil => simp [dropCell, Callback.is_alive]
  | cons cl rest ih =>
    cases d with
    | zero =>
      cases j with
      | zero => simp [dropCell, Callback.is_alive]
      | succ j => simp [dropCell, Callback.is_alive]
    | succ d =>
      cases j with
      | zero => simp [dropCell, Callback.is_alive]
      | succ j => simpa [dropCell, Callback.is_alive] using ih d j

theorem is_alive_cloneCell (cells : List Cell) (d j : Nat) :
    Callback.is_alive (cloneCell cells d) j = Callback.is_alive cells j := by
  induction cells generalizing d j with
  | nil => simp [cloneCell]
  | cons cl rest ih =>
    cases d with
    | zero => cases j <;> simp [cloneCell, Callback.is_alive]
    | succ d =>
      cases j with
      | zero => simp [cloneCell, Callback.is_alive]
      | succ j => simpa [cloneCell, Callback.is_alive] using ih d j

theorem length_dropCell (cells : List Cell) (d : Nat) :
    (dropCell cells d).length = cells.length := by
  induction cells generalizing d with
  | nil => simp [dropCell]
  | cons cl rest ih =>
    cases d with
    | zero => simp [dropCell]
    | succ d => simpa [dropCell] using ih d

theorem length_cloneCell (cells : List Cell) (d : Nat) :
    (cloneCell cells d).length = cells.length := by
  induction cells generalizing d with
  | nil => simp [cloneCell]
  | cons cl rest ih =>
    cases d with
    | zero => simp [cloneCell]
    | succ d => simpa [cloneCell] using ih d

theorem handleCount_dropCell (cells : List Cell) (d j : Nat) :
    handleCount (dropCell cells d) j
      = if j = d then handleCount cells j - 1 else handleCount cells j := by
  induction cells generalizing d j with
  | nil => simp [dropCell, handleCount]
  | cons cl rest ih =>
    cases d with
    | zero =>
      cases j with
      | zero => simp [dropCell, handleCount]
      | succ j => simp [dropCell, handleCount]
    | succ d =>
      cases j with
      | zero => simp [dropCell, handleCount]
      | succ j => simpa [dropCell, handleCount, Nat.succ_inj] using ih d j

theorem map_alive_dropCell_dead (cells : List Cell) (d : Nat)
    (h : Callback.is_alive cells d = false) :
    (dropCell cells d).map Cell.alive = cells.map Cell.alive := by
  induction cells generalizing d with
  | nil => simp [dropCell]
  | cons cl rest ih =>
    cases d with
    | zero =>
      simp only [Callback.is_alive] at h
      simp [dropCell, h]
    | succ d =>
      simp only [Callback.is_alive] at h
      simpa [dropCell] using ih d h

theorem is_alive_append_lt (cells l2 : List Cell) (j : Nat) (h : j < cells.length) :
    Callback.is_alive (cells ++ l2) j = Callback.is_alive cells j := by
  induction cells generalizing j with
  | nil => simp at h
  | cons cl rest ih =>
    cases j with
    | zero => simp [Callback.is_alive]
    | succ j =>
      simp only [List.length_cons, Nat.succ_lt_succ_iff] at h
      simpa [Callback.is_alive] using ih j h

theorem is_alive_foldl_dropCell (ds : List Nat) (cells : List Cell) (j : Nat) :
    Callback.is_alive (ds.foldl dropCell cells) j
      = (Callback.is_alive cells j && !(ds.contains j)) := by
  induction ds generalizing cells with
  | nil => simp
  | cons d ds ih =>
    simp only [List.foldl_cons, ih, is_alive_dropCell, List.contains_cons]
    by_cases h : j = d
    · simp [h]
    · simp [h, Ne.symm h, Bool.and_assoc]

theorem length_foldl_dropCell (ds : List Nat) (cells : List Cell) :
    (ds.foldl dropCell cells).length = cells.length := by
  induction ds generalizing cells with
  | nil => simp
  | cons d ds ih => simp [ih, length_dropCell]

/-! ## Lemmas about the invoke loop and `run_all` -/

theorem invokeAll_of_no_fail (beh : Nat → ClosureBeh) (args : α)
    (cells : List Cell) (l : List Nat) (h : ∀ c ∈ l, (beh c).fails = false) :
    (invokeAll beh args cells l).2.1 = l.map (fun c => (c, args))
      ∧ (invokeAll beh args cells l).2.2 = true := by
  induction l generalizing cells with
  | nil => simp [invokeAll]
  | cons c rest ih =>
    have hc : (beh c).fails = false := h c (List.mem_cons_self c rest)
    have hrest : ∀ x ∈ rest, (beh x).fails = false :=
      fun x hx => h x (List.mem_cons_of_mem c hx)
    have := ih ((beh c).drops.foldl dropCell cells) hrest
    simp [invokeAll, hc, this.1, this.2]

theorem invokeAll_cells_of_no_drops (beh : Nat → ClosureBeh) (args : α)
    (cells : List Cell) (l : List Nat) (h : ∀ c ∈ l, (beh c).drops = []) :
    (invokeAll beh args cells l).1 = cells := by
  induction l generalizing cells with
  | nil => simp [invokeAll]
  | cons c rest ih =>
    have hc : (beh c).drops = [] := h c (List.mem_cons_self c rest)
    have hrest : ∀ x ∈ rest, (beh x).drops = [] :=
      fun x hx => h x (List.mem_cons_of_mem c hx)
    by_cases hf : (beh c).fails
    · simp [invokeAll, hc, hf]
    · simp [invokeAll, hc, hf, ih cells hrest]

theorem mem_invokeAll_trace (beh : Nat → ClosureBeh) (args : α)
    (cells : List Cell) (l : List Nat) (c : Nat) (a : α)
    (h : (c, a) ∈ (invokeAll beh args cells l).2.1) : c ∈ l ∧ a = args := by
  induction l generalizing cells with
  | nil => simp [invokeAll] at h
  | cons x rest ih =>
    by_cases hf : (beh x).fails
    · simp [invokeAll, hf] at h
      simp [h.1, h.2]
    · simp only [invokeAll, hf, if_false, Bool.false_eq_true, List.mem_cons,
        Prod.mk.injEq] at h
      rcases h with ⟨h1, h2⟩ | h
      · simp [h1, h2]
      · have := ih ((beh x).drops.foldl dropCell cells) h
        simp [this.1, this.2]

theorem is_alive_invokeAll_false (beh : Nat → ClosureBeh) (args : α)
    (cells : List Cell) (l : List Nat) (j : Nat)
    (h : Callback.is_alive cells j = false) :
    Callback.is_alive (invokeAll beh args cells l).1 j = false := by
  induction l generalizing cells with
  | nil => simpa [invokeAll] using h
  | cons c rest ih =>
    have h2 : Callback.is_alive ((beh c).drops.foldl dropCell cells) j = false := by
      simp [is_alive_foldl_dropCell, h]
    by_cases hf : (beh c).fails
    · simpa [invokeAll, hf] using h2
    · simpa [invokeAll, hf] using ih _ h2

theorem length_invokeAll (beh : Nat → ClosureBeh) (args : α)
    (cells : List Cell) (l : List Nat) :
    (invokeAll beh args cells l).1.length = cells.length := by
  induction l generalizing cells with
  | nil => simp [invokeAll]
  | cons c rest ih =>
    by_cases hf : (beh c).fails
    · simp [invokeAll, hf, length_foldl_dropCell]
    · simp [invokeAll, hf, ih, length_foldl_dropCell]

theorem run_all_callbacks (beh : Nat → ClosureBeh) (s : CMState) (args : α) :
    (CallbackManager.run_all beh s args).1.callbacks
      = s.callbacks.filter (Callback.is_alive s.cells) := rfl

theorem is_alive_run_all_false (beh : Nat → ClosureBeh) (s : CMState) (args : α)
    (j : Nat) (h : Callback.is_alive s.cells j = false) :
    Callback.is_alive (CallbackManager.run_all beh s args).1.cells j = false :=
  is_alive_invokeAll_false beh args s.cells _ j h

theorem mem_run_all_trace (beh : Nat → ClosureBeh) (s : CMState) (args : α)
    (c : Nat) (a : α) (h : (c, a) ∈ (CallbackManager.run_all beh s args).2.1) :
    Callback.is_alive s.cells c = true ∧ a = args := by
  have h2 := mem_invokeAll_trace beh args s.cells
    (s.callbacks.filter (Callback.is_alive s.cells)) c a h
  exact ⟨(List.mem_filter.mp h2.1).2, h2.2⟩

/-! ## The state after `n` registrations -/

theorem addN_eq (n : Nat) :
    addN n = ⟨List.replicate n ⟨true, 1⟩, List.range n⟩ := by
  induction n with
  | zero => rfl
  | succ n ih =>
    simp [addN, CallbackManager.add, ih, List.replicate_succ', List.range_succ]

theorem is_alive_replicate (n j : Nat) :
    Callback.is_alive (List.replicate n ⟨true, 1⟩) j = decide (j < n) := by
  induction n generalizing j with
  | zero => simp [Callback.is_alive]
  | succ n ih =>
    cases j with
    | zero => simp [List.replicate_succ, Callback.is_alive]
    | succ j =>
      simp [List.replicate_succ, Callback.is_alive, ih, Nat.succ_lt_succ_iff]

theorem is_alive_append_length (cells : List Cell) (cl : Cell) (l2 : List Cell) :
    Callback.is_alive (cells ++ cl :: l2) cells.length = cl.alive := by
  induction cells with
  | nil => simp [Callback.is_alive]
  | cons x rest ih => simpa [Callback.is_alive] using ih

theorem handleCount_append_length (cells : List Cell) (cl : Cell) (l2 : List Cell) :
    handleCount (cells ++ cl :: l2) cells.length = cl.handles := by
  induction cells with
  | nil => simp [handleCount]
  | cons x rest ih => simpa [handleCount] using ih

/-! ## Claim C1: all handles retained, every closure runs once with `args` -/

theorem prune_addN (n : Nat) :
    (addN n).callbacks.filter (Callback.is_alive (addN n).cells) = List.range n := by
  rw [addN_eq]
  refine List.filter_eq_self.mpr (fun a ha => ?_)
  simp [is_alive_replicate, List.mem_range.mp ha]

/-- C1: starting from a fresh manager on which `n` closures were registered
and every returned handle is retained, `run_all args` produces the trace
`(0, args), …, (n-1, args)`: each of the `n` closures is invoked exactly
once, and every invocation receives a value equal to `args`. -/
theorem C1_run_all_invokes_each_once (beh : Nat → ClosureBeh) (n : Nat) (args : α)
    (hfail : ∀ i, i < n → (beh i).fails = false) :
    (CallbackManager.run_all beh (addN n) args).2.1
        = (List.range n).map (fun i => (i, args))
      ∧ (∀ i, i < n →
          ((CallbackManager.run_all beh (addN n) args).2.1.map Prod.fst).count i = 1)
      ∧ (∀ p ∈ (CallbackManager.run_all beh (addN n) args).2.1, p.2 = args) := by
  have hno : ∀ c ∈ (addN n).callbacks.filter (Callback.is_alive (addN n).cells),
      (beh c).fails = false := by
    intro c hc
    rw [prune_addN] at hc
    exact hfail c (List.mem_range.mp hc)
  have htr : (CallbackManager.run_all beh (addN n) args).2.1
      = (List.range n).map (fun i => (i, args)) := by
    have := (invokeAll_of_no_fail beh args (addN n).cells
      ((addN n).callbacks.filter (Callback.is_alive (addN n).cells)) hno).1
    calc (CallbackManager.run_all beh (addN n) args).2.1
        = (invokeAll beh args (addN n).cells
            ((addN n).callbacks.filter (Callback.is_alive (addN n).cells))).2.1 := rfl
      _ = _ := by rw [this, prune_addN]
  refine ⟨htr, fun i hi => ?_, fun p hp => ?_⟩
  · rw [htr]
    have : ((List.range n).map (fun i => (i, args))).map Prod.fst = List.range n := by
      simp [List.map_map, Function.comp_def]
    rw [this]
    exact List.count_eq_one_of_mem (List.nodup_range n) (List.mem_range.mpr hi)
  · rw [htr] at hp
    rcases List.mem_map.mp hp with ⟨i, _, rfl⟩
    rfl

/-- Witness for C1 at `n = 3`, `args = 42`, effect-free closures. -/
theorem C1_witness :
    (∀ i, i < 3 → (behPure i).fails = false)
      ∧ (CallbackManager.run_all behPure (addN 3) (42 : Nat)).2.1
          = (List.range 3).map (fun i => (i, 42)) :=
  ⟨fun _ _ => rfl, (C1_run_all_invokes_each_once behPure 3 42 (fun _ _ => rfl)).1⟩

/-! ## Claim C2: a dropped handle's closure is never invoked again -/

theorem is_alive_drop_addN (n i j : Nat) :
    Callback.is_alive (Handle.drop (addN n) i).cells j
      = (decide (j < n) && !(j == i)) := by
  rw [addN_eq]
  simp [Handle.drop, is_alive_dropCell, is_alive_replicate]

theorem not_mem_runAllSeq_dead (beh : Nat → ClosureBeh) (s : CMState) (i : Nat)
    (h : Callback.is_alive s.cells i = false) (more : List α) (a : α) :
    (i, a) ∉ (runAllSeq beh s more).2 := by
  induction more generalizing s with
  | nil => simp [runAllSeq]
  | cons m ms ih =>
    intro hmem
    simp only [runAllSeq, List.mem_append] at hmem
    rcases hmem with hmem | hmem
    · have := (mem_run_all_trace beh s m i a hmem).1
      rw [h] at this
      exact Bool.false_ne_true this
    · exact ih _ (is_alive_run_all_false beh s m i h) hmem

theorem prune_drop_addN (n i : Nat) :
    (Handle.drop (addN n) i).callbacks.filter
        (Callback.is_alive (Handle.drop (addN n) i).cells)
      = (List.range n).filter (fun j => !(j == i)) := by
  have hcb : (Handle.drop (addN n) i).callbacks = List.range n := by
    rw [addN_eq]
    rfl
  rw [hcb]
  refine List.filter_congr (fun j hj => ?_)
  simp [is_alive_drop_addN, List.mem_range.mp hj]

theorem length_filter_ne (n i : Nat) (hi : i < n) :
    ((List.range n).filter (fun j => !(j == i))).length = n - 1 := by
  have h1 : (List.range n).erase i = (List.range n).filter (fun j => !(j == i)) := by
    have h2 := (List.nodup_range n).erase_eq_filter i
    simpa [bne] using h2
  rw [← h1, List.length_erase_of_mem (List.mem_range.mpr hi), List.length_range]

/-- C2: register `n` closures, drop handle `i`, then call `run_all`: closure
`i` is not invoked in that call, the entry count drops to `n - 1`, and no
later sequence of `run_all` calls ever invokes closure `i` again. -/
theorem C2_dropped_handle_not_invoked (beh : Nat → ClosureBeh) (n i : Nat)
    (hi : i < n) (args : α) (more : List α) :
    (∀ a, (i, a) ∉ (CallbackManager.run_all beh (Handle.drop (addN n) i) args).2.1)
    ∧ (CallbackManager.run_all beh (Handle.drop (addN n) i) args).1.callbacks.length
        = n - 1
    ∧ (∀ a, (i, a) ∉ (runAllSeq beh
        (CallbackManager.run_all beh (Handle.drop (addN n) i) args).1 more).2) := by
  have hdead : Callback.is_alive (Handle.drop (addN n) i).cells i = false := by
    simp [is_alive_drop_addN]
  refine ⟨fun a hmem => ?_, ?_, fun a => ?_⟩
  · have := (mem_run_all_trace beh _ args i a hmem).1
    rw [hdead] at this
    exact Bool.false_ne_true this
  · rw [run_all_callbacks, prune_drop_addN n i, length_filter_ne n i hi]
  · exact not_mem_runAllSeq_dead beh _ i
      (is_alive_run_all_false beh _ args i hdead) more a

/-- Witness for C2 at `n = 1`, `i = 0` (spec scenario C: register one
callback, drop its handle, run twice). -/
theorem C2_witness :
    (0 < 1)
    ∧ (CallbackManager.run_all behPure (Handle.drop (addN 1) 0) (7 : Nat)).1.callbacks.length
        = 1 - 1 :=
  ⟨by decide, (C2_dropped_handle_not_invoked behPure 1 0 (by decide) 7 [8]).2.1⟩

/-! ## Claim C4: pruning preserves registration order -/

theorem foldl_handle_drop (ds : List Nat) (s : CMState) :
    ds.foldl Handle.drop s = ⟨ds.foldl dropCell s.cells, s.callbacks⟩ := by
  induction ds generalizing s with
  | nil => rfl
  | cons d ds ih => simp [List.foldl_cons, ih, Handle.drop]

theorem prune_foldl_drop_addN (n : Nat) (ds : List Nat) :
    (ds.foldl Handle.drop (addN n)).callbacks.filter
        (Callback.is_alive (ds.foldl Handle.drop (addN n)).cells)
      = (List.range n).filter (fun j => !(ds.contains j)) := by
  rw [foldl_handle_drop, addN_eq]
  refine List.filter_congr (fun j hj => ?_)
  simp [is_alive_foldl_dropCell, is_alive_replicate, List.mem_range.mp hj]

/-- C4: register `n` closures in order `0, …, n-1`, drop any subset `ds` of
the handles: the entries surviving the prune are exactly the non-dropped
ones, still in registration order (a sublist of `0, …, n-1`, i.e. a stable
filter), and `run_all` invokes them in that order. -/
theorem C4_order_preserved (beh : Nat → ClosureBeh) (n : Nat) (ds : List Nat)
    (args : α)
    (hfail : ∀ c ∈ (List.range n).filter (fun j => !(ds.contains j)),
      (beh c).fails = false) :
    (CallbackManager.run_all beh (ds.foldl Handle.drop (addN n)) args).1.callbacks
        = (List.range n).filter (fun j => !(ds.contains j))
    ∧ (CallbackManager.run_all beh (ds.foldl Handle.drop (addN n)) args).2.1
        = ((List.range n).filter (fun j => !(ds.contains j))).map (fun c => (c, args))
    ∧ List.Sublist ((List.range n).filter (fun j => !(ds.contains j)))
        (List.range n) := by
  have hp := prune_foldl_drop_addN n ds
  have hno : ∀ c ∈ (ds.foldl Handle.drop (addN n)).callbacks.filter
      (Callback.is_alive (ds.foldl Handle.drop (addN n)).cells),
      (beh c).fails = false := by
    rw [hp]
    exact hfail
  have htr := (invokeAll_of_no_fail beh args (ds.foldl Handle.drop (addN n)).cells _ hno).1
  refine ⟨by rw [run_all_callbacks, hp], ?_, List.filter_sublist _⟩
  calc (CallbackManager.run_all beh (ds.foldl Handle.drop (addN n)) args).2.1
      = (invokeAll beh args (ds.foldl Handle.drop (addN n)).cells
          ((ds.foldl Handle.drop (addN n)).callbacks.filter
            (Callback.is_alive (ds.foldl Handle.drop (addN n)).cells))).2.1 := rfl
    _ = _ := by rw [htr, hp]

/-- Witness for C4 at `n = 3`, dropped subset `{1}` (spec scenario B drops
one of three handles). -/
theorem C4_witness :
    (∀ c ∈ (List.range 3).filter (fun j => !([1].contains j)),
      (behPure c).fails = false)
    ∧ (CallbackManager.run_all behPure ([1].foldl Handle.drop (addN 3)) (9 : Nat)).2.1
        = ((List.range 3).filter (fun j => !([1].contains j))).map (fun c => (c, 9)) :=
  ⟨fun _ _ => rfl, (C4_order_preserved behPure 3 [1] 9 (fun _ _ => rfl)).2.1⟩

/-! ## Claim C5: staleness after `run_all`

The claim as stated is false on the code: `run_all` prunes *before*
invoking, so an entry whose handle is dropped by a closure during the
invoke pass stays in the collection (with liveness `false`) until the
*next* `run_all`.  The amended claim: after `run_all` returns, the
collection contains no entry whose liveness was already false when the
call began. -/

/-- C5 counterexample: two registered callbacks; closure `0` drops the
handle of entry `1` during the invoke pass.  After `run_all` returns,
entry `1` is still in the collection and its liveness is `false`, so the
collection does contain an entry whose liveness is false. -/
theorem C5_counterexample :
    ¬ (∀ c ∈ (CallbackManager.run_all behDropsOne (addN 2) (0 : Nat)).1.callbacks,
        Callback.is_alive
          (CallbackManager.run_all behDropsOne (addN 2) (0 : Nat)).1.cells c
          = true) := by
  decide

/-- C5 (amended): immediately after `run_all` returns, the collection
contains no entry whose liveness was false at the moment the call began
(entries killed by closures during the same pass may remain until the next
call). -/
theorem C5_no_stale_entry_at_entry (beh : Nat → ClosureBeh) (s : CMState)
    (args : α) (c : Nat)
    (h : c ∈ (CallbackManager.run_all beh s args).1.callbacks) :
    Callback.is_alive s.cells c = true := by
  rw [run_all_callbacks] at h
  exact (List.mem_filter.mp h).2

/-- Witness for the amended C5. -/
theorem C5_witness :
    (0 ∈ (CallbackManager.run_all behPure (addN 1) (3 : Nat)).1.callbacks)
    ∧ Callback.is_alive (addN 1).cells 0 = true :=
  ⟨by decide, C5_no_stale_entry_at_entry behPure (addN 1) 3 0 (by decide)⟩

/-! ## Claim C6: `Handle::drop` marks immediately and touches nothing else -/

/-- C6: dropping a handle immediately sets the associated liveness flag to
false, leaves the manager's callback collection untouched (no entry is
removed at drop time), creates or removes no cell, and leaves the liveness
flag and outstanding-handle count of every other entry unchanged. -/
theorem C6_drop_marks_dead_touches_nothing_else (s : CMState) (h : Nat) :
    Callback.is_alive (Handle.drop s h).cells h = false
    ∧ (Handle.drop s h).callbacks = s.callbacks
    ∧ (Handle.drop s h).cells.length = s.cells.length
    ∧ (∀ j, j ≠ h →
        Callback.is_alive (Handle.drop s h).cells j = Callback.is_alive s.cells j
        ∧ handleCount (Handle.drop s h).cells j = handleCount s.cells j) := by
  refine ⟨?_, rfl, length_dropCell s.cells h, fun j hj => ⟨?_, ?_⟩⟩
  · simp [Handle.drop, is_alive_dropCell]
  · simp [Handle.drop, is_alive_dropCell, hj]
  · simp [Handle.drop, handleCount_dropCell, hj]

/-- Witness for C6: dropping handle `0` of two leaves entry `1` untouched. -/
theorem C6_witness :
    (1 ≠ 0)
    ∧ Callback.is_alive (Handle.drop (addN 2) 0).cells 1
        = Callback.is_alive (addN 2).cells 1 :=
  ⟨by decide, ((C6_drop_marks_dead_touches_nothing_else (addN 2) 0).2.2.2 1
    (by decide)).1⟩

/-! ## Claim C7: liveness is monotone (dead stays dead) -/

theorem stepOp_length_le (beh : Nat → ClosureBeh) (s : CMState) (op : Op α) :
    s.cells.length ≤ (stepOp beh s op).cells.length := by
  cases op with
  | dropH h => simp [stepOp, Handle.drop, length_dropCell]
  | cloneH h => simp [stepOp, Handle.clone, length_cloneCell]
  | addC => simp [stepOp, CallbackManager.add]
  | runAll a =>
    have : (CallbackManager.run_all beh s a).1.cells
        = (invokeAll beh a s.cells
            (s.callbacks.filter (Callback.is_alive s.cells))).1 := rfl
    rw [stepOp, this, length_invokeAll]

theorem stepOp_dead (beh : Nat → ClosureBeh) (s : CMState) (op : Op α) (c : Nat)
    (hc : c < s.cells.length) (h : Callback.is_alive s.cells c = false) :
    Callback.is_alive (stepOp beh s op).cells c = false := by
  cases op with
  | dropH h0 => simp [stepOp, Handle.drop, is_alive_dropCell, h]
  | cloneH h0 => simp [stepOp, Handle.clone, is_alive_cloneCell, h]
  | addC =>
    have : (stepOp beh s (Op.addC : Op α)).cells = s.cells ++ [⟨true, 1⟩] := rfl
    rw [this, is_alive_append_lt s.cells _ c hc, h]
  | runAll a => exact is_alive_run_all_false beh s a c h

theorem stepsOp_dead (beh : Nat → ClosureBeh) (s : CMState) (c : Nat)
    (ops : List (Op α)) (hc : c < s.cells.length)
    (h : Callback.is_alive s.cells c = false) :
    Callback.is_alive (stepsOp beh s ops).cells c = false := by
  induction ops generalizing s with
  | nil => exact h
  | cons op ops ih =>
    exact ih (stepOp beh s op) (Nat.lt_of_lt_of_le hc (stepOp_length_le beh s op))
      (stepOp_dead beh s op c hc h)

/-- C7: once an entry's liveness flag is false it stays false under every
sequence of host operations (handle drops, handle clones, `add` calls and
`run_all` calls, the latter including drops performed by closures), and
dropping a handle of an already-dead entry changes neither the liveness
flags nor the callback collection. -/
theorem C7_dead_stays_dead (beh : Nat → ClosureBeh) (s : CMState) (c : Nat)
    (hc : c < s.cells.length) (h : Callback.is_alive s.cells c = false) :
    (∀ ops : List (Op α), Callback.is_alive (stepsOp beh s ops).cells c = false)
    ∧ Callback.is_alive (Handle.drop s c).cells c = false
    ∧ (Handle.drop s c).callbacks = s.callbacks
    ∧ (Handle.drop s c).cells.map Cell.alive = s.cells.map Cell.alive := by
  refine ⟨fun ops => stepsOp_dead beh s c ops hc h, ?_, rfl, ?_⟩
  · simp [Handle.drop, is_alive_dropCell]
  · exact map_alive_dropCell_dead s.cells c h

/-- Witness for C7: entry `0` of one whose handle was dropped stays dead
across a subsequent `add` and `run_all`. -/
theorem C7_witness :
    (0 < (Handle.drop (addN 1) 0).cells.length
      ∧ Callback.is_alive (Handle.drop (addN 1) 0).cells 0 = false)
    ∧ Callback.is_alive
        (stepsOp behPure (Handle.drop (addN 1) 0)
          [Op.addC, Op.runAll (5 : Nat)]).cells 0 = false :=
  ⟨⟨by decide, by decide⟩,
    (C7_dead_stays_dead behPure (Handle.drop (addN 1) 0) 0 (by decide)
      (by decide)).1 [Op.addC, Op.runAll 5]⟩

/-! ## Claim C3: clone semantics

The claim (dropping one clone while another is retained does not kill the
entry) is false on the code: `Handle`'s `Drop` impl sets the shared flag to
`false` unconditionally, without consulting the `Rc` strong count, so
dropping *any* clone marks the entry dead.  The spec explicitly requires
the reference-counted variant, and the only purpose of `#[derive(Clone)]`
on a keep-alive capability is multi-owner keep-alive, so this is a slip in
the code. -/

/-- C3: evaluation of the code at the failing input: one callback is
registered, its handle is cloned, and one of the two clones is dropped.
One handle is still outstanding (`handleCount = 1`), yet the entry's
liveness is already false and the next `run_all` prunes the entry and
invokes nothing. -/
theorem C3_drop_one_clone_kills_entry :
    handleCount (Handle.drop (Handle.clone (addN 1) 0) 0).cells 0 = 1
    ∧ Callback.is_alive (Handle.drop (Handle.clone (addN 1) 0) 0).cells 0 = false
    ∧ (CallbackManager.run_all behPure (Handle.drop (Handle.clone (addN 1) 0) 0)
        (0 : Nat)).1.callbacks = []
    ∧ (CallbackManager.run_all behPure (Handle.drop (Handle.clone (addN 1) 0) 0)
        (0 : Nat)).2.1 = [] := by
  decide

/-! ## Claim C8: `add` appends one fresh live entry -/

/-- C8: `add` is total, appends exactly one entry at the end of the
collection (all existing entries and cells unchanged, as the common
prefix), returns the handle of a fresh cell not paired with any existing
entry, whose liveness starts `true` with exactly one outstanding handle,
and preserves well-formedness. -/
theorem C8_add_appends_fresh_alive (s : CMState) (hwf : s.WF) :
    (CallbackManager.add s).1.callbacks = s.callbacks ++ [(CallbackManager.add s).2]
    ∧ (CallbackManager.add s).1.cells = s.cells ++ [⟨true, 1⟩]
    ∧ Callback.is_alive (CallbackManager.add s).1.cells (CallbackManager.add s).2
        = true
    ∧ handleCount (CallbackManager.add s).1.cells (CallbackManager.add s).2 = 1
    ∧ (CallbackManager.add s).2 ∉ s.callbacks
    ∧ (CallbackManager.add s).1.WF := by
  refine ⟨rfl, rfl, ?_, ?_, ?_, ?_⟩
  · exact is_alive_append_length s.cells ⟨true, 1⟩ []
  · exact handleCount_append_length s.cells ⟨true, 1⟩ []
  · intro hmem
    exact Nat.lt_irrefl _ (hwf _ hmem)
  · intro c hc
    have hlen : (CallbackManager.add s).1.cells.length = s.cells.length + 1 := by
      simp [CallbackManager.add]
    rw [hlen]
    rcases List.mem_append.mp hc with h1 | h1
    · exact Nat.lt_succ_of_lt (hwf c h1)
    · rw [List.mem_singleton.mp h1]
      exact Nat.lt_succ_self _

/-- Witness for C8 on a manager with two live entries. -/
theorem C8_witness :
    CMState.WF (addN 2)
    ∧ Callback.is_alive (CallbackManager.add (addN 2)).1.cells
        (CallbackManager.add (addN 2)).2 = true :=
  ⟨by decide, (C8_add_appends_fresh_alive (addN 2) (by decide)).2.2.1⟩

/-! ## Claim C9: a panicking closure fails fast; prune stays in effect -/

theorem invokeAll_fail_fast (beh : Nat → ClosureBeh) (args : α) (c : Nat)
    (post : List Nat) (hc : (beh c).fails = true) :
    ∀ (pre : List Nat) (cells : List Cell), (∀ x ∈ pre, (beh x).fails = false) →
      (invokeAll beh args cells (pre ++ c :: post)).2.1
          = (pre ++ [c]).map (fun i => (i, args))
        ∧ (invokeAll beh args cells (pre ++ c :: post)).2.2 = false := by
  intro pre
  induction pre with
  | nil =>
    intro cells _
    simp [invokeAll, hc]
  | cons x rest ih =>
    intro cells hpre
    have hx : (beh x).fails = false := hpre x (List.mem_cons_self x rest)
    have hrest : ∀ y ∈ rest, (beh y).fails = false :=
      fun y hy => hpre y (List.mem_cons_of_mem x hy)
    have hr := ih ((beh x).drops.foldl dropCell cells) hrest
    simp [invokeAll, hx, hr.1, hr.2]

/-- C9: if the prune pass leaves `pre ++ c :: post` and closure `c` is the
first to panic, `run_all` reports the failure to its caller, the trace
stops at `c` (the closures of `post` are not invoked), and the pruned
collection `pre ++ c :: post` — with the dead entries already removed —
remains the manager's collection. -/
theorem C9_fail_fast (beh : Nat → ClosureBeh) (s : CMState) (args : α)
    (pre : List Nat) (c : Nat) (post : List Nat)
    (hsplit : s.callbacks.filter (Callback.is_alive s.cells) = pre ++ c :: post)
    (hpre : ∀ x ∈ pre, (beh x).fails = false) (hc : (beh c).fails = true) :
    (CallbackManager.run_all beh s args).2.2 = false
    ∧ (CallbackManager.run_all beh s args).2.1
        = (pre ++ [c]).map (fun i => (i, args))
    ∧ (CallbackManager.run_all beh s args).1.callbacks = pre ++ c :: post := by
  have h1 := invokeAll_fail_fast beh args c post hc pre s.cells hpre
  refine ⟨?_, ?_, ?_⟩
  · calc (CallbackManager.run_all beh s args).2.2
        = (invokeAll beh args s.cells
            (s.callbacks.filter (Callback.is_alive s.cells))).2.2 := rfl
      _ = false := by rw [hsplit]; exact h1.2
  · calc (CallbackManager.run_all beh s args).2.1
        = (invokeAll beh args s.cells
            (s.callbacks.filter (Callback.is_alive s.cells))).2.1 := rfl
      _ = _ := by rw [hsplit]; exact h1.1
  · rw [run_all_callbacks, hsplit]

/-- Witness for C9: three live entries, closure `1` panics. -/
theorem C9_witness :
    ((addN 3).callbacks.filter (Callback.is_alive (addN 3).cells)
        = [0] ++ 1 :: [2])
    ∧ (CallbackManager.run_all behFailsOne (addN 3) (5 : Nat)).2.2 = false :=
  ⟨by decide, (C9_fail_fast behFailsOne (addN 3) 5 [0] 1 [2] (by decide)
    (by decide) (by decide)).1⟩

/-! ## Claim C10: the prune step is idempotent -/

/-- C10: when no invoked closure drops a handle (or panics), filtering the
collection by `is_alive` a second time removes nothing, a second `run_all`
leaves both the cells and the collection exactly as the first left them,
and the two consecutive calls invoke the same sequence of closures. -/
theorem C10_prune_idempotent (beh : Nat → ClosureBeh) (s : CMState) (a1 a2 : α)
    (h : ∀ c ∈ s.callbacks, (beh c).drops = [] ∧ (beh c).fails = false) :
    ((CallbackManager.run_all beh s a1).1.callbacks.filter
        (Callback.is_alive (CallbackManager.run_all beh s a1).1.cells)
      = (CallbackManager.run_all beh s a1).1.callbacks)
    ∧ (CallbackManager.run_all beh (CallbackManager.run_all beh s a1).1 a2).1.cells
        = (CallbackManager.run_all beh s a1).1.cells
    ∧ (CallbackManager.run_all beh (CallbackManager.run_all beh s a1).1 a2).1.callbacks
        = (CallbackManager.run_all beh s a1).1.callbacks
    ∧ ((CallbackManager.run_all beh (CallbackManager.run_all beh s a1).1 a2).2.1.map
          Prod.fst
        = (CallbackManager.run_all beh s a1).2.1.map Prod.fst) := by
  have hdrops : ∀ c ∈ s.callbacks.filter (Callback.is_alive s.cells),
      (beh c).drops = [] := fun c hc => (h c (List.mem_of_mem_filter hc)).1
  have hfails : ∀ c ∈ s.callbacks.filter (Callback.is_alive s.cells),
      (beh c).fails = false := fun c hc => (h c (List.mem_of_mem_filter hc)).2
  have hcb1 : (CallbackManager.run_all beh s a1).1.callbacks
      = s.callbacks.filter (Callback.is_alive s.cells) := run_all_callbacks beh s a1
  have hcells1 : (CallbackManager.run_all beh s a1).1.cells = s.cells := by
    calc (CallbackManager.run_all beh s a1).1.cells
        = (invokeAll beh a1 s.cells
            (s.callbacks.filter (Callback.is_alive s.cells))).1 := rfl
      _ = s.cells := invokeAll_cells_of_no_drops beh a1 s.cells _ hdrops
  have hidem : (s.callbacks.filter (Callback.is_alive s.cells)).filter
        (Callback.is_alive s.cells)
      = s.callbacks.filter (Callback.is_alive s.cells) :=
    List.filter_eq_self.mpr (fun a ha => (List.mem_filter.mp ha).2)
  have hprune2 : (CallbackManager.run_all beh s a1).1.callbacks.filter
        (Callback.is_alive (CallbackManager.run_all beh s a1).1.cells)
      = s.callbacks.filter (Callback.is_alive s.cells) := by
    rw [hcb1, hcells1, hidem]
  have hdrops2 : ∀ c ∈ (CallbackManager.run_all beh s a1).1.callbacks.filter
      (Callback.is_alive (CallbackManager.run_all beh s a1).1.cells),
      (beh c).drops = [] := by
    rw [hprune2]
    exact hdrops
  have hfails2 : ∀ c ∈ (CallbackManager.run_all beh s a1).1.callbacks.filter
      (Callback.is_alive (CallbackManager.run_all beh s a1).1.cells),
      (beh c).fails = false := by
    rw [hprune2]
    exact hfails
  refine ⟨by rw [hcb1, hcells1, hidem], ?_, ?_, ?_⟩
  · calc (CallbackManager.run_all beh (CallbackManager.run_all beh s a1).1 a2).1.cells
        = (invokeAll beh a2 (CallbackManager.run_all beh s a1).1.cells
            ((CallbackManager.run_all beh s a1).1.callbacks.filter
              (Callback.is_alive (CallbackManager.run_all beh s a1).1.cells))).1 := rfl
      _ = (CallbackManager.run_all beh s a1).1.cells :=
        invokeAll_cells_of_no_drops beh a2 _ _ hdrops2
  · rw [run_all_callbacks, hprune2, hcb1]
  · have htr2 : (CallbackManager.run_all beh (CallbackManager.run_all beh s a1).1
        a2).2.1
        = ((CallbackManager.run_all beh s a1).1.callbacks.filter
            (Callback.is_alive (CallbackManager.run_all beh s a1).1.cells)).map
          (fun c => (c, a2)) :=
      (invokeAll_of_no_fail beh a2 (CallbackManager.run_all beh s a1).1.cells _
        hfails2).1
    have htr1 : (CallbackManager.run_all beh s a1).2.1
        = (s.callbacks.filter (Callback.is_alive s.cells)).map (fun c => (c, a1)) :=
      (invokeAll_of_no_fail beh a1 s.cells _ hfails).1
    rw [htr1, htr2, hprune2]
    simp [List.map_map, Function.comp_def]

/-- Witness for C10 on two live entries and effect-free closures. -/
theorem C10_witness :
    (∀ c ∈ (addN 2).callbacks, (behPure c).drops = [] ∧ (behPure c).fails = false)
    ∧ (CallbackManager.run_all behPure (addN 2) (1 : Nat)).1.callbacks.filter
        (Callback.is_alive (CallbackManager.run_all behPure (addN 2) (1 : Nat)).1.cells)
      = (CallbackManager.run_all behPure (addN 2) (1 : Nat)).1.callbacks :=
  ⟨by decide, (C10_prune_idempotent behPure (addN 2) 1 2 (by decide)).1⟩
